import Mathlib

/-!
Verification of the AI-Optimism toolkit backend
(`ai_optimism/backend/app/routers/evaluate.py`,
`ai_optimism/backend/app/services/optimization_service.py`,
`ai_optimism/backend/app/services/toolkit_adapters.py`).

The sandboxed expression evaluator `safe_eval` walks a Python `ast` tree, so
the embedding works over that tree (parsing of the expression string into the
tree is done by CPython's parser and is outside the embedding).  Python
numbers are modelled exactly: `int` as `ℤ`, `float` as `ℚ` (every claim under
verification only exercises arithmetic that is exact in double precision, and
`int`/`bool` arithmetic which is exact in Python).

Modelling notes, i.e. places where the embedding is intentionally narrower
than CPython, none of which is exercised by any theorem below:
* the six whitelisted `math` functions (`sqrt exp log sin cos tan`) return
  irrational machine floats on almost all inputs; applying them is mapped to
  the error `Err.inexact`, marking the boundary of the exact fragment;
* fractional exponents (`2 ** 0.5`) are likewise `Err.inexact`;
* string/sequence ordering (`"a" < "b"`), sequence repetition (`"a" * 3`),
  the two-argument forms of `round` and `sum`, and the `None` literal are
  left out (they evaluate to `Err.typeError` / are absent from the tree);
* `min`/`max`/`sum` over non-numeric elements are `Err.typeError`.
-/

namespace AIOpt

/-- Names of the whitelisted functions (`SAFE_FUNCTIONS` in evaluate.py). -/
inductive FName where
  | abs | min | max | sum | round | pow | sqrt | exp | log | sin | cos | tan
deriving DecidableEq, Repr

/-- Runtime values of the evaluator: the Python values `safe_eval` can
produce (numbers, booleans, strings, lists, tuples, whitelisted functions). -/
inductive Value where
  | bool  (b : Bool)
  | int   (n : ℤ)
  | float (q : ℚ)
  | str   (s : String)
  | list  (vs : List Value)
  | tuple (vs : List Value)
  | func  (f : FName)
deriving Repr

/-- Literals that can appear in an `ast.Constant` node. -/
inductive Lit where
  | bool  (b : Bool)
  | int   (n : ℤ)
  | float (q : ℚ)
  | str   (s : String)
deriving DecidableEq, Repr

/-- Exceptions raised inside `eval_node`; the top-level `except` of
`safe_eval` re-raises them all as `ValueError("Evaluation error: ...")`,
changing only the message, so the embedding keeps the cause. -/
inductive Err where
  | nameError (x : String)   -- NameError "Variable '<x>' not defined"
  | typeError                -- TypeError from an operator or call
  | zeroDivisionError        -- ZeroDivisionError
  | notCallable              -- ValueError "Not a callable"
  | argumentError            -- TypeError/ValueError for a bad argument list
  | inexact                  -- modelling boundary: irrational float result
deriving DecidableEq, Repr

/-- Binary operators of `SAFE_OPERATORS` usable in an `ast.BinOp`. -/
inductive BinOp where
  | add | sub | mul | div | floordiv | mod | pow
deriving DecidableEq, Repr

/-- Unary operators (`ast.USub`, `ast.UAdd`). -/
inductive UnOp where
  | neg | pos
deriving DecidableEq, Repr

/-- Comparison operators of `SAFE_OPERATORS` usable in an `ast.Compare`. -/
inductive CmpOp where
  | eq | ne | lt | le | gt | ge
deriving DecidableEq, Repr

/-- The expression fragment accepted by `eval_node`: every other `ast` node
raises `ValueError("Unsupported AST node")` and is absent from this type. -/
inductive Expr where
  | lit     (l : Lit)
  | name    (x : String)
  | binop   (op : BinOp) (a b : Expr)
  | unop    (op : UnOp) (a : Expr)
  | compare (a : Expr) (links : List (CmpOp × Expr))
  | ifExp   (test body orelse : Expr)
  | call    (f : Expr) (args : List Expr)
  | listE   (es : List Expr)
  | tupleE  (es : List Expr)
deriving Repr

/-- The `variables` dict of `safe_eval`. -/
abbrev Env := List (String × Value)

/-- Python's `bool`-is-an-`int` coercion used by arithmetic operators. -/
def Value.asInt? : Value → Option ℤ
  | .bool b => some (if b then 1 else 0)
  | .int n  => some n
  | _       => none

/-- The numeric tower `bool ≤ int ≤ float` widened to `ℚ`. -/
def Value.asRat? : Value → Option ℚ
  | .bool b  => some (if b then 1 else 0)
  | .int n   => some (n : ℚ)
  | .float q => some q
  | _        => none

/-- Python truthiness (`if condition:`). -/
def truthy : Value → Bool
  | .bool b   => b
  | .int n    => n != 0
  | .float q  => q != 0
  | .str s    => s != ""
  | .list vs  => !vs.isEmpty
  | .tuple vs => !vs.isEmpty
  | .func _   => true

mutual

/-- Python `==` (never raises): numeric values compare by value across
`bool`/`int`/`float`, sequences elementwise, anything else by kind. -/
def valueEq : Value → Value → Bool
  | .str s, .str t => s == t
  | .func f, .func g => f == g
  | .list vs, .list ws => valueListEq vs ws
  | .tuple vs, .tuple ws => valueListEq vs ws
  | v, w =>
    match v.asRat?, w.asRat? with
    | some p, some q => p == q
    | _, _ => false

/-- Elementwise equality of Python sequences. -/
def valueListEq : List Value → List Value → Bool
  | [], [] => true
  | v :: vs, w :: ws => valueEq v w && valueListEq vs ws
  | _, _ => false

end

/-- Python floor-division on integers (`7 // -2 == -4`). -/
def pyIntFloorDiv (a b : ℤ) : ℤ := Int.fdiv a b

/-- Python `%` on integers: the remainder takes the sign of the divisor. -/
def pyIntMod (a b : ℤ) : ℤ := a - b * Int.fdiv a b

/-- The `SAFE_OPERATORS` entries applied by an `ast.BinOp`. -/
def applyBin : BinOp → Value → Value → Except Err Value
  | .add, v, w =>
    match v.asInt?, w.asInt? with
    | some i, some j => .ok (.int (i + j))
    | _, _ =>
      match v.asRat?, w.asRat? with
      | some p, some q => .ok (.float (p + q))
      | _, _ =>
        match v, w with
        | .str s, .str t => .ok (.str (s ++ t))
        | .list vs, .list ws => .ok (.list (vs ++ ws))
        | .tuple vs, .tuple ws => .ok (.tuple (vs ++ ws))
        | _, _ => .error .typeError
  | .sub, v, w =>
    match v.asInt?, w.asInt? with
    | some i, some j => .ok (.int (i - j))
    | _, _ =>
      match v.asRat?, w.asRat? with
      | some p, some q => .ok (.float (p - q))
      | _, _ => .error .typeError
  | .mul, v, w =>
    match v.asInt?, w.asInt? with
    | some i, some j => .ok (.int (i * j))
    | _, _ =>
      match v.asRat?, w.asRat? with
      | some p, some q => .ok (.float (p * q))
      | _, _ => .error .typeError
  | .div, v, w =>
    match v.asRat?, w.asRat? with
    | some p, some q => if q = 0 then .error .zeroDivisionError else .ok (.float (p / q))
    | _, _ => .error .typeError
  | .floordiv, v, w =>
    match v.asInt?, w.asInt? with
    | some i, some j => if j = 0 then .error .zeroDivisionError else .ok (.int (pyIntFloorDiv i j))
    | _, _ =>
      match v.asRat?, w.asRat? with
      | some p, some q => if q = 0 then .error .zeroDivisionError else .ok (.float (⌊p / q⌋ : ℤ))
      | _, _ => .error .typeError
  | .mod, v, w =>
    match v.asInt?, w.asInt? with
    | some i, some j => if j = 0 then .error .zeroDivisionError else .ok (.int (pyIntMod i j))
    | _, _ =>
      match v.asRat?, w.asRat? with
      | some p, some q => if q = 0 then .error .zeroDivisionError else .ok (.float (p - q * (⌊p / q⌋ : ℤ)))
      | _, _ => .error .typeError
  | .pow, v, w =>
    match v.asInt?, w.asInt? with
    | some i, some j =>
      if 0 ≤ j then .ok (.int (i ^ j.toNat))
      else if i = 0 then .error .zeroDivisionError
      else .ok (.float ((i : ℚ) ^ j))
    | _, _ =>
      match v.asRat?, w.asRat? with
      | some p, some q =>
        if q.den = 1 then
          if p = 0 ∧ q.num < 0 then .error .zeroDivisionError
          else .ok (.float (p ^ q.num))
        else .error .inexact
      | _, _ => .error .typeError

/-- The `SAFE_OPERATORS` entries applied by an `ast.UnaryOp` (`+x` and `-x` promote a
`bool` to `int`, as in Python). -/
def applyUn : UnOp → Value → Except Err Value
  | .neg, v =>
    match v.asInt? with
    | some i => .ok (.int (-i))
    | none =>
      match v.asRat? with
      | some q => .ok (.float (-q))
      | none => .error .typeError
  | .pos, v =>
    match v.asInt? with
    | some i => .ok (.int i)
    | none =>
      match v.asRat? with
      | some q => .ok (.float q)
      | none => .error .typeError

/-- The `SAFE_OPERATORS` entries applied by one link of an `ast.Compare`. -/
def applyCmp : CmpOp → Value → Value → Except Err Bool
  | .eq, v, w => .ok (valueEq v w)
  | .ne, v, w => .ok (!valueEq v w)
  | .lt, v, w =>
    match v.asRat?, w.asRat? with
    | some p, some q => .ok (decide (p < q))
    | _, _ => .error .typeError
  | .le, v, w =>
    match v.asRat?, w.asRat? with
    | some p, some q => .ok (decide (p ≤ q))
    | _, _ => .error .typeError
  | .gt, v, w =>
    match v.asRat?, w.asRat? with
    | some p, some q => .ok (decide (q < p))
    | _, _ => .error .typeError
  | .ge, v, w =>
    match v.asRat?, w.asRat? with
    | some p, some q => .ok (decide (q ≤ p))
    | _, _ => .error .typeError

/-- Python `round`: round-half-to-even (banker's rounding). -/
def bankersRound (q : ℚ) : ℤ :=
  let f : ℤ := ⌊q⌋
  let frac : ℚ := q - f
  if frac < 1/2 then f
  else if (1:ℚ)/2 < frac then f + 1
  else if f % 2 = 0 then f else f + 1

/-- Smallest element of a non-empty value list under the numeric order
(first occurrence wins on ties, as in Python `min`). -/
def reduceMin (v : Value) (vs : List Value) : Except Err Value :=
  match vs with
  | [] => .ok v
  | w :: ws =>
    match v.asRat?, w.asRat? with
    | some p, some q => if q < p then reduceMin w ws else reduceMin v ws
    | _, _ => .error .typeError

/-- Largest element (first occurrence wins on ties, as in Python `max`). -/
def reduceMax (v : Value) (vs : List Value) : Except Err Value :=
  match vs with
  | [] => .ok v
  | w :: ws =>
    match v.asRat?, w.asRat? with
    | some p, some q => if p < q then reduceMax w ws else reduceMax v ws
    | _, _ => .error .typeError

/-- Python `sum(xs)` with the default start `0` (an `int`): the sum is an
`int` iff every element is `bool`/`int`. -/
def reduceSum (vs : List Value) : Except Err Value :=
  let ints? := vs.mapM Value.asInt?
  match ints? with
  | some is => .ok (.int (is.sum))
  | none =>
    match vs.mapM Value.asRat? with
    | some qs => .ok (.float (qs.sum))
    | none => .error .typeError

/-- Application of a whitelisted function to evaluated arguments. -/
def applyFunc : FName → List Value → Except Err Value
  | .abs, [v] =>
    (match v.asInt? with
     | some i => .ok (.int |i|)
     | none =>
       match v.asRat? with
       | some q => .ok (.float |q|)
       | none => .error .typeError)
  | .abs, _ => .error .argumentError
  | .min, [Value.list (v :: vs)] => reduceMin v vs
  | .min, [Value.tuple (v :: vs)] => reduceMin v vs
  | .min, [_] => .error .argumentError
  | .min, [] => .error .argumentError
  | .min, v :: vs => reduceMin v vs
  | .max, [Value.list (v :: vs)] => reduceMax v vs
  | .max, [Value.tuple (v :: vs)] => reduceMax v vs
  | .max, [_] => .error .argumentError
  | .max, [] => .error .argumentError
  | .max, v :: vs => reduceMax v vs
  | .sum, [Value.list vs] => reduceSum vs
  | .sum, [Value.tuple vs] => reduceSum vs
  | .sum, _ => .error .argumentError
  | .round, [v] =>
    (match v with
     | .bool b => .ok (.int (if b then 1 else 0))
     | .int n => .ok (.int n)
     | .float q => .ok (.int (bankersRound q))
     | _ => .error .typeError)
  | .round, _ => .error .argumentError
  | .pow, [v, w] => applyBin .pow v w
  | .pow, _ => .error .argumentError
  | _, _ => .error .inexact

/-- The `SAFE_FUNCTIONS` name lookup. -/
def FName.ofString? : String → Option FName := fun s =>
  if s = "abs" then some .abs
  else if s = "min" then some .min
  else if s = "max" then some .max
  else if s = "sum" then some .sum
  else if s = "round" then some .round
  else if s = "pow" then some .pow
  else if s = "sqrt" then some .sqrt
  else if s = "exp" then some .exp
  else if s = "log" then some .log
  else if s = "sin" then some .sin
  else if s = "cos" then some .cos
  else if s = "tan" then some .tan
  else none

/-- The value of an `ast.Constant`. -/
def Lit.value : Lit → Value
  | .bool b  => .bool b
  | .int n   => .int n
  | .float q => .float q
  | .str s   => .str s

mutual

/-- The `eval_node` recursion of `safe_eval` (evaluate.py lines 77-152). -/
def evalNode (env : Env) : Expr → Except Err Value
  | .lit l => .ok l.value
  | .name x =>
    match List.lookup x env with
    | some v => .ok v
    | none =>
      match FName.ofString? x with
      | some f => .ok (.func f)
      | none => .error (.nameError x)
  | .binop op a b =>
    match evalNode env a with
    | .error e => .error e
    | .ok va =>
      match evalNode env b with
      | .error e => .error e
      | .ok vb => applyBin op va vb
  | .unop op a =>
    match evalNode env a with
    | .error e => .error e
    | .ok v => applyUn op v
  | .compare a links =>
    match evalNode env a with
    | .error e => .error e
    | .ok v =>
      match evalChain env v links with
      | .error e => .error e
      | .ok b => .ok (.bool b)
  | .ifExp t b o =>
    match evalNode env t with
    | .error e => .error e
    | .ok vc => if truthy vc then evalNode env b else evalNode env o
  | .call f args =>
    match evalNode env f with
    | .error e => .error e
    | .ok vf =>
      match evalArgs env args with
      | .error e => .error e
      | .ok vs =>
        match vf with
        | .func g => applyFunc g vs
        | _ => .error .notCallable
  | .listE es =>
    match evalArgs env es with
    | .error e => .error e
    | .ok vs => .ok (.list vs)
  | .tupleE es =>
    match evalArgs env es with
    | .error e => .error e
    | .ok vs => .ok (.tuple vs)

/-- Left-to-right evaluation of subexpression lists (call arguments,
list/tuple elements). -/
def evalArgs (env : Env) : List Expr → Except Err (List Value)
  | [] => .ok []
  | e :: rest =>
    match evalNode env e with
    | .error err => .error err
    | .ok v =>
      match evalArgs env rest with
      | .error err => .error err
      | .ok vs => .ok (v :: vs)

/-- The comparison loop of `ast.Compare` (evaluate.py lines 112-124): each
link evaluates its comparator, returns `False` as soon as a link fails
(leaving later comparators unevaluated), and chains `left = right`. -/
def evalChain (env : Env) (left : Value) : List (CmpOp × Expr) → Except Err Bool
  | [] => .ok true
  | (op, c) :: rest =>
    match evalNode env c with
    | .error e => .error e
    | .ok right =>
      match applyCmp op left right with
      | .error e => .error e
      | .ok b => if b then evalChain env right rest else .ok false

end

/-- The final coercion of `safe_eval` (lines 154-164): booleans become
`1.0`/`0.0`, numbers become floats, anything else is returned unchanged. -/
def coerceTop : Value → Value
  | .bool b => .float (if b then 1 else 0)
  | .int n  => .float (n : ℚ)
  | v => v

/-- Python `safe_eval(expression, variables)` on the parsed tree of the
expression. -/
def safe_eval (e : Expr) (env : Env) : Except Err Value :=
  match evalNode env e with
  | .error err => .error err
  | .ok v => .ok (coerceTop v)

/-- Specification-side reading of a comparison chain: every link evaluates
its comparator successfully and the comparison holds, the left operand
chaining forward. -/
def holdsAll (env : Env) (left : Value) : List (CmpOp × Expr) → Bool
  | [] => true
  | (op, c) :: rest =>
    match evalNode env c with
    | .error _ => false
    | .ok right =>
      match applyCmp op left right with
      | .error _ => false
      | .ok b => b && holdsAll env right rest

mutual

/-- The names referenced by an expression (every `ast.Name` node). -/
def exprNames : Expr → List String
  | .lit _ => []
  | .name x => [x]
  | .binop _ a b => exprNames a ++ exprNames b
  | .unop _ a => exprNames a
  | .compare a links => exprNames a ++ linkNames links
  | .ifExp t b o => exprNames t ++ exprNames b ++ exprNames o
  | .call f args => exprNames f ++ exprListNames args
  | .listE es => exprListNames es
  | .tupleE es => exprListNames es

/-- Names referenced by a list of subexpressions. -/
def exprListNames : List Expr → List String
  | [] => []
  | e :: rest => exprNames e ++ exprListNames rest

/-- Names referenced by the comparators of a chain. -/
def linkNames : List (CmpOp × Expr) → List String
  | [] => []
  | (_, c) :: rest => exprNames c ++ linkNames rest

end

/-- The top-level result is a float (`isinstance(result, (int, float))`
branch after coercion). -/
def isFloatV : Value → Bool
  | .float _ => true
  | _ => false

/-- A non-numeric top-level result, which `safe_eval` returns unchanged
(the final `return result` of line 164). -/
def nonNumericTop : Value → Bool
  | .str _ => true
  | .list _ => true
  | .tuple _ => true
  | .func _ => true
  | _ => false

/-! ### Python dict / `tuple(sorted(d.items()))` machinery

Designs travel through the service as `tuple(sorted(dict.items()))`; the
adapters convert `tuple → dict → tuple`.  `dictInsert` is a single dict
store (`d[k] = v`: overwrite in place, else append, preserving insertion
order), `toDict` is `dict(pairs)` (last value wins, first position kept),
`sortByKey` is `sorted(d.items())` — dict keys are unique, so comparing the
key component alone agrees with Python's lexicographic pair comparison. -/

/-- Python `d[k] = v` on an insertion-ordered dict. -/
def dictInsert {α : Type} (k : String) (v : α) : List (String × α) → List (String × α)
  | [] => [(k, v)]
  | (k', v') :: rest => if k = k' then (k, v) :: rest else (k', v') :: dictInsert k v rest

/-- Python `dict(pairs)`. -/
def toDict {α : Type} (l : List (String × α)) : List (String × α) :=
  l.foldl (fun d p => dictInsert p.1 p.2 d) []

/-- Insert one pair into a key-sorted list. -/
def insertSorted {α : Type} (p : String × α) : List (String × α) → List (String × α)
  | [] => [p]
  | q :: rest => if p.1 ≤ q.1 then p :: q :: rest else q :: insertSorted p rest

/-- Python `sorted(pairs)` (insertion sort by key). -/
def sortByKey {α : Type} : List (String × α) → List (String × α)
  | [] => []
  | p :: rest => insertSorted p (sortByKey rest)

/-- Python `tuple(sorted(dict(pairs).items()))`, the canonical Design form. -/
def canon {α : Type} (l : List (String × α)) : List (String × α) :=
  sortByKey (toDict l)

/-! ### toolkit_adapters.ConfigurableModifier -/

/-- A Design as the adapters see it: a tuple of (variable name, numeric
value) pairs.  Python `int` values (category indices, rounded discrete
values) are the integral rationals. -/
abbrev Design := List (String × ℚ)

/-- Python `%` on floats (used by `neighbor_step` on categories):
`a % b = a - b * floor(a / b)`. -/
def pyRatMod (a b : ℚ) : ℚ := a - b * (⌊a / b⌋ : ℤ)

/-- The configuration captured by `ConfigurableModifier.__init__`:
the bound variable name, the strategy dict (`type`, with `sigma` /
`stepSize` parametrising the random draws), the variable config dict and
the direction.  `sigma` and `stepSize` only shape the distributions of the
random draws, which the embedding takes as explicit inputs (`Rand`), so
they do not appear as fields. -/
structure ModifierCfg where
  variableName : String
  stype? : Option String      -- strategy.get('type', 'gaussian')
  direction : String
  vtype : String              -- variable_config['type']
  vmin? : Option ℚ            -- variable_config 'min' (None for categorical)
  vmax? : Option ℚ
  categories : List String    -- variable_config 'categories' ([] for none)

/-- One call's worth of random draws, passed explicitly.  Each field is the
outcome of the library call named in its comment; at most one of them is
consumed per execution path.  Distributional facts (e.g. `resetUniform ∈
[min, max]`, `resetIdx < len(categories)`) become hypotheses of the
theorems that rely on them. -/
structure Rand where
  gaussInc : ℚ      -- random.gauss(0, sigma), of which abs() is taken
  gaussSym : ℚ      -- the separate random.gauss(0, sigma) for direction 'random'
  uniformStep : ℚ   -- random.uniform(0, step), of which abs() is taken
  uniformSym : ℚ    -- random.uniform(-step, step)
  resetIdx : ℕ      -- random.randint(0, len(categories) - 1)
  resetUniform : ℚ  -- random.uniform(min_val, max_val)
  choicePos : Bool  -- random.choice([-1, 1]); true stands for +1

/-- Python `ConfigurableModifier.__call__` (toolkit_adapters.py lines 21-104).
The `.get('min', -inf)` / `.get('max', inf)` defaults of the clamp are
modelled by skipping the corresponding bound when it is absent (a present
`None` bound would raise a `TypeError` in Python; numeric variables always
carry both bounds per the model validators). -/
def ConfigurableModifier.call (m : ModifierCfg) (r : Rand) (design : Design) : Design :=
  let new_design := toDict design
  match List.lookup m.variableName new_design with
  | none => sortByKey new_design
  | some current =>
    let mtype := m.stype?.getD ("gaussian")
    let new_value : ℚ :=
      if mtype = "gaussian" then
        if m.direction = "increase" then current + |r.gaussInc|
        else if m.direction = "decrease" then current - |r.gaussInc|
        else current + r.gaussSym
      else if mtype = "uniform" then
        if m.direction = "increase" then current + |r.uniformStep|
        else if m.direction = "decrease" then current - |r.uniformStep|
        else current + r.uniformSym
      else if mtype = "random_reset" then
        if m.vtype = "categorical" then
          if m.categories ≠ [] then (r.resetIdx : ℚ) else current
        else r.resetUniform
      else if mtype = "neighbor_step" then
        if m.vtype = "categorical" then
          if 1 < m.categories.length then
            pyRatMod (current + (if r.choicePos then 1 else -1)) m.categories.length
          else current
        else
          current + (if m.direction = "increase" then 1
                     else if m.direction = "decrease" then (-1)
                     else if r.choicePos then 1 else -1)
      else current
    let clamped : ℚ :=
      if m.vtype = "continuous" ∨ m.vtype = "discrete" then
        let upper := match m.vmax? with | some hi => min hi new_value | none => new_value
        let bounded := match m.vmin? with | some lo => max lo upper | none => upper
        if m.vtype = "discrete" then (bankersRound bounded : ℤ) else bounded
      else new_value
    sortByKey (dictInsert m.variableName clamped new_design)

/-! ### optimization_service: violation objectives, normalization, seeding -/

/-- A design passed to the evaluator: the service hands the design dict to
`safe_eval` as the variables mapping (numeric values; Python stores floats
for drawn values and ints for category indices — the embedding widens both
to `float`, which no whitelisted operation under verification
distinguishes). -/
def designEnv (d : Design) : Env := d.map fun p => (p.1, Value.float p.2)

/-- The `make_violation_evaluator` closure (optimization_service.py lines 238-248):
score `0.0` when `safe_eval` returns a truthy value, `1.0` when it returns
a falsy value or raises. -/
def make_violation_evaluator (e : Expr) (env : Env) : ℚ :=
  match safe_eval e env with
  | .ok v => if truthy v then 0 else 1
  | .error _ => 1

/-- The running normalization bounds closed over by `make_objective_func`. -/
structure NormState where
  obs_min : ℚ
  obs_max : ℚ
deriving DecidableEq, Repr

/-- The initialisation of the bounds (lines 305-306): estimated bounds when
sampling produced them, else `0.0` / `1.0` (the `float('inf')` sentinels of
a failed estimate are modelled as `none`). -/
def initNormState (initMin? initMax? : Option ℚ) : NormState :=
  ⟨initMin?.getD 0, initMax?.getD 1⟩

/-- Python `float(...)` applied to a `safe_eval` outcome, with any exception
(evaluation error or non-numeric result) signalled as `none`. -/
def floatOfResult? : Except Err Value → Option ℚ
  | .ok v => v.asRat?
  | .error _ => none

/-- The `evaluate` closure built by `make_objective_func` (lines 308-338),
with the mutable `obs_min`/`obs_max` state passed explicitly: returns the
score and the updated state. -/
def objectiveEvaluate (expr : Expr) (goal : String) (st : NormState) (env : Env) :
    ℚ × NormState :=
  match floatOfResult? (safe_eval expr env) with
  | none => (0, st)
  | some raw =>
    let obs_min := if raw < st.obs_min then raw else st.obs_min
    let obs_max := if raw > st.obs_max then raw else st.obs_max
    let normalized : ℚ := if obs_min < obs_max then (raw - obs_min) / (obs_max - obs_min) else 1/2
    let inverted : ℚ := if goal = "minimize" then 1 - normalized else normalized
    (max 0 (min 1 inverted), ⟨obs_min, obs_max⟩)

/-! ### Seed design generation (optimization_service.py lines 95-159) -/

/-- One variable of the optimization problem as `run_optimization` reads it
(the `Variable` pydantic model with `type`, `min`, `max`, `categories`). -/
structure VarSpec where
  name : String
  vtype : String
  vmin? : Option ℚ
  vmax? : Option ℚ
  categories : List String

/-- The deterministic heuristic fallback design (lines 133-143): first
category index for categorical variables, midpoint of the numeric range
otherwise (`min`/`max` defaulting to `0`/`100` when absent). -/
def heuristicDesign (vars : List VarSpec) : Design :=
  canon (vars.map fun v =>
    (v.name,
      if v.vtype = "categorical" ∧ v.categories ≠ [] then 0
      else ((v.vmin?.getD 0) + (v.vmax?.getD 100)) / 2))

/-- The constraint check of the seeding loop (lines 115-123): every
constraint must evaluate truthy; an exception counts as unsatisfied. -/
def satisfiesConstraints (cs : List Expr) (d : Design) : Bool :=
  cs.all fun c =>
    match safe_eval c (designEnv d) with
    | .ok v => truthy v
    | .error _ => false

/-- One seed slot (lines 104-143): the first of up to `max_attempts = 1000`
drawn designs that satisfies every constraint (canonicalized on
acceptance), else the heuristic fallback.  The uniform draws themselves are
the `attempts` input. -/
def genSlot (cs : List Expr) (vars : List VarSpec) (attempts : List Design) : Design :=
  match (attempts.take 1000).find? (satisfiesConstraints cs) with
  | some d => canon d
  | none => heuristicDesign vars

/-- Modelled from the spec: the `SeedGenerationError` of the spec's error
taxonomy (§7).  No such class or `raise` exists anywhere in
`run_optimization`'s seeding code; the type records what the spec says the
run should fail with. -/
inductive SeedGenerationError where
  | noSeeds
deriving DecidableEq, Repr

/-- The whole seeding phase (lines 97-159): `min(10, population_size)`
slots, each filled by `genSlot`; if the seed list is empty afterwards
(possible only when there are zero slots) the code appends one unchecked
random design per slot — drawn from `fallbackRandom` — and proceeds.  The
body mirrors the source, which contains no failure path. -/
def generateSeeds (vars : List VarSpec) (cs : List Expr) (populationSize : ℕ)
    (attempts : List (List Design)) (fallbackRandom : List Design) :
    Except SeedGenerationError (List Design) :=
  let slots := min 10 populationSize
  let seeds := (List.range slots).map fun i => genSlot cs vars (attempts.getD i [])
  if seeds.length = 0 then
    .ok ((fallbackRandom.take slots).map canon)
  else
    .ok seeds

/-! ### Constraint analysis and heuristic-map wiring (lines 188-285) -/

/-- Python `expression.replace(" ", "")`. -/
def stripSpaces (s : List Char) : List Char := s.filter (fun c => c ≠ ' ')

/-- Python `needle in hay` on strings. -/
def containsSub (needle : List Char) : List Char → Bool
  | [] => needle.isEmpty
  | c :: t => List.isPrefixOf needle (c :: t) || containsSub needle t

/-- Python `hay.split(sep)` for a non-empty separator: split at every
(non-overlapping, leftmost-first) occurrence. -/
def splitOnSub (sep : List Char) : List Char → List (List Char)
  | [] => [[]]
  | c :: t =>
    if sep.isPrefixOf (c :: t) then
      [] :: splitOnSub sep (List.drop (sep.length - 1) t)
    else
      match splitOnSub sep t with
      | [] => [[c]]
      | seg :: rest => (c :: seg) :: rest
termination_by l => l.length
decreasing_by
  all_goals
    simp only [List.length_cons, List.length_drop]
    omega

/-- The operator search of `analyze_constraint` (lines 203-207): `<=` is
tried before `>=` before `<` before `>`. -/
def findOp (e : List Char) : Option String :=
  if containsSub ("<=".data) e then some ("<=")
  else if containsSub (">=".data) e then some (">=")
  else if containsSub ("<".data) e then some ("<")
  else if containsSub (">".data) e then some (">")
  else none

/-- Regex class `[a-zA-Z_]`. -/
def isIdentStart (c : Char) : Bool := c.isAlpha || c = '_'

/-- Regex class `[a-zA-Z0-9_]`. -/
def isIdentChar (c : Char) : Bool := c.isAlphanum || c = '_'

/-- Python `re.findall(r'[a-zA-Z_][a-zA-Z0-9_]*', s)`: maximal-munch identifier
scan. -/
def findIdents : List Char → List String
  | [] => []
  | c :: t =>
    if isIdentStart c then
      (c :: t.takeWhile isIdentChar).asString :: findIdents (t.dropWhile isIdentChar)
    else findIdents t
termination_by l => l.length
decreasing_by
  · simp only [List.length_cons]
    exact Nat.lt_succ_of_le (List.dropWhile_sublist _).length_le
  · simp only [List.length_cons]
    exact Nat.lt_succ_self _

/-- The `analyze_constraint` helper (lines 195-217): `none` models the uncaught
`ValueError` of the unpacking `left, right = expr.split(op)` when the
operator occurs more than once. -/
def analyze_constraint (s : String) :
    Option (List String × List String × Option String) :=
  let e := stripSpaces s.data
  match findOp e with
  | none => some ([], [], none)
  | some op =>
    match splitOnSub op.data e with
    | [l, r] => some (findIdents l, findIdents r, some op)
    | _ => none

/-- One side's weight loop (lines 263-276): for each identifier `v`, store
`w1` under `t1 ++ v` then `w2` under `t2 ++ v` into the weights dict. -/
def foldTag (t1 : String) (w1 : ℚ) (t2 : String) (w2 : ℚ)
    (vs : List String) (w0 : List (String × ℚ)) : List (String × ℚ) :=
  vs.foldl (fun w v => dictInsert (t2 ++ v) w2 (dictInsert (t1 ++ v) w1 w)) w0

/-- The directional weights built for one analyzed constraint
(lines 260-276). -/
def constraintWeights (lv rv : List String) (op : String) : List (String × ℚ) :=
  if op = "<=" ∨ op = "<" then
    foldTag ("inc_") 1 ("dec_") (-1) rv (foldTag ("dec_") 1 ("inc_") (-1) lv [])
  else if op = ">=" ∨ op = ">" then
    foldTag ("dec_") 1 ("inc_") (-1) rv (foldTag ("inc_") 1 ("dec_") (-1) lv [])
  else []

/-- Python `f"Violation({constraint.expression})"`. -/
def violationName (cexpr : String) : String := "Violation(" ++ cexpr ++ ")"

/-- An entry of the aggregate Objective Function.  Modelled from the spec:
`Objective_Function.add_objective_by_weight` (the `optimism_toolkit`
package, absent from the sources) registers an (objective, weight) pair
contributing `weight * score` to the aggregate; the entries below mirror
the registration calls of `run_optimization`. -/
structure RegisteredObjective where
  name : String
  weight : ℚ
deriving DecidableEq, Repr

/-- Processing of one constraint (lines 219-285): analyze, build the
directional weights (an empty dict is not recorded), register the violation
objective with weight `10.0`.  `none` models the run aborting on the
uncaught unpacking `ValueError` inside `analyze_constraint`. -/
def constraintRegistration (cexpr : String) :
    Option (RegisteredObjective × List (String × ℚ)) :=
  match analyze_constraint cexpr with
  | none => none
  | some (lv, rv, op?) =>
    let w := match op? with | some op => constraintWeights lv rv op | none => []
    some (⟨violationName cexpr, 10⟩, w)

/-- The full Objective Function contents after registration: violation
objectives (weight `10.0`, lines 283-285) then user objectives (weight
`1.0`, lines 343-344). -/
def registerAll (constraints : List String) (objectives : List String) :
    Option (List RegisteredObjective) :=
  match constraints.mapM (fun c => (constraintRegistration c).map (·.1)) with
  | none => none
  | some vs => some (vs ++ objectives.map fun o => ⟨o, 1⟩)

/-! ## C2 — the three documented evaluator examples -/

/-- C2: `evaluate("1 if x > 5 else 0", {"x": 7})` is `1.0`,
`evaluate("x ** 2", {"x": 3})` is `9.0`, and `evaluate("a + b", {"a": 1})`
raises an evaluation error for the undefined name `b`. -/
theorem safe_eval_examples :
    safe_eval (.ifExp (.compare (.name ("x")) [(.gt, .lit (.int 5))]) (.lit (.int 1)) (.lit (.int 0)))
        [("x", .int 7)] = .ok (.float 1) ∧
    safe_eval (.binop .pow (.name ("x")) (.lit (.int 2))) [("x", .int 3)] = .ok (.float 9) ∧
    safe_eval (.binop .add (.name ("a")) (.name ("b"))) [("a", .int 1)] = .error (.nameError ("b")) :=
  ⟨rfl, rfl, rfl⟩

/-! ## C1 — the `safe_eval` contract -/

/-- C1 (amended): whenever `safe_eval` succeeds, the top-level value is a
float (booleans coerced to `1.0`/`0.0`, ints widened) or a non-numeric
value returned unchanged; and evaluating a bare name that is neither bound
nor whitelisted fails with the name error. -/
theorem safe_eval_result_discipline :
    (∀ (e : Expr) (env : Env) (v : Value),
        safe_eval e env = .ok v → (isFloatV v || nonNumericTop v) = true) ∧
    (∀ (x : String) (env : Env), List.lookup x env = none → FName.ofString? x = none →
        safe_eval (.name x) env = .error (.nameError x)) := by
  constructor
  · intro e env v h
    unfold safe_eval at h
    cases he : evalNode env e with
    | error err => rw [he] at h; cases h
    | ok w =>
      rw [he] at h
      cases h
      cases w <;> simp [coerceTop, isFloatV, nonNumericTop]
  · intro x env h1 h2
    simp [safe_eval, evalNode, h1, h2]

/-- C1 witness: a successful evaluation (`1`) yields a float, and the
unbound name `zzz` fails with a name error. -/
theorem safe_eval_result_discipline_witness :
    (isFloatV (.float 1) || nonNumericTop (.float 1)) = true ∧
    safe_eval (.name ("zzz")) [] = .error (.nameError ("zzz")) :=
  ⟨safe_eval_result_discipline.1 (.lit (.int 1)) [] (.float 1) rfl,
   safe_eval_result_discipline.2 ("zzz") [] rfl rfl⟩

/-- C1 counterexample to the claim as stated: `1 if 1 else b` references
the name `b`, which is neither bound nor whitelisted, yet `safe_eval`
does not fail — the untaken branch is never evaluated and the result is
`1.0`. -/
theorem safe_eval_dead_branch_name_counterexample :
    ("b" ∈ exprNames (.ifExp (.lit (.int 1)) (.lit (.int 1)) (.name ("b")))) ∧
    List.lookup ("b") ([] : Env) = none ∧
    FName.ofString? ("b") = none ∧
    safe_eval (.ifExp (.lit (.int 1)) (.lit (.int 1)) (.name ("b"))) [] = .ok (.float 1) := by
  refine ⟨?_, rfl, rfl, rfl⟩
  simp [exprNames]

/-! ## C8 — chained comparisons -/

/-- C8: a comparison chain that has gone false stays false no matter what
links follow (they are not evaluated); the chain is true exactly when
every link evaluates and holds; and the boolean outcome is coerced to
`1.0`/`0.0` at the top level of `safe_eval`. -/
theorem chained_comparison_spec :
    (∀ (env : Env) (left : Value) (pre rest : List (CmpOp × Expr)),
        evalChain env left pre = .ok false →
        evalChain env left (pre ++ rest) = .ok false) ∧
    (∀ (env : Env) (left : Value) (links : List (CmpOp × Expr)),
        evalChain env left links = .ok true ↔ holdsAll env left links = true) ∧
    (∀ (env : Env) (a : Expr) (links : List (CmpOp × Expr)),
        (evalNode env (.compare a links) = .ok (.bool true) →
          safe_eval (.compare a links) env = .ok (.float 1)) ∧
        (evalNode env (.compare a links) = .ok (.bool false) →
          safe_eval (.compare a links) env = .ok (.float 0))) := by
  refine ⟨?_, ?_, ?_⟩
  · intro env left pre rest
    induction pre generalizing left with
    | nil => intro h; simp [evalChain] at h
    | cons link pre ih =>
      obtain ⟨op, c⟩ := link
      intro h
      simp only [evalChain, List.cons_append] at h ⊢
      cases hc : evalNode env c with
      | error err => simp [hc] at h
      | ok right =>
        simp only [hc] at h ⊢
        cases ha : applyCmp op left right with
        | error err => simp [ha] at h
        | ok b =>
          simp only [ha] at h ⊢
          cases b with
          | true => simpa using ih right (by simpa using h)
          | false => simp
  · intro env left links
    induction links generalizing left with
    | nil => simp [evalChain, holdsAll]
    | cons link rest ih =>
      obtain ⟨op, c⟩ := link
      simp only [evalChain, holdsAll]
      cases hc : evalNode env c with
      | error err => simp [hc]
      | ok right =>
        simp only [hc]
        cases ha : applyCmp op left right with
        | error err => simp [ha]
        | ok b =>
          simp only [ha]
          cases b with
          | true => simpa using ih right
          | false => simp
  · intro env a links
    constructor <;> intro h <;> simp [safe_eval, h, coerceTop]

/-- C8 witness: `3 < 2` is false, and stays false when the unevaluable
link `< z` (with `z` unbound) is appended. -/
theorem chained_comparison_spec_witness :
    evalChain [] (.int 3) [(CmpOp.lt, .lit (.int 2))] = .ok false ∧
    evalChain [] (.int 3) ([(CmpOp.lt, .lit (.int 2))] ++ [(CmpOp.lt, .name ("z"))]) = .ok false :=
  ⟨rfl, chained_comparison_spec.1 [] (.int 3) _ _ rfl⟩

/-! ## C3 — constraints become high-weight violation objectives -/

/-- The first component of a successful constraint registration is always
the `Violation(...)` objective with weight 10. -/
theorem constraintRegistration_fst (c : String) (r : RegisteredObjective × List (String × ℚ))
    (h : constraintRegistration c = some r) : r.1 = ⟨violationName c, 10⟩ := by
  unfold constraintRegistration at h
  cases ha : analyze_constraint c with
  | none => rw [ha] at h; cases h
  | some trip =>
    obtain ⟨lv, rv, op?⟩ := trip
    rw [ha] at h
    cases h
    rfl

/-- Every constraint contributes its violation objective to the mapM'd
prefix of the registration list. -/
theorem mapM_constraint_mem (cs : List String) (vs : List RegisteredObjective)
    (h : cs.mapM (fun c => (constraintRegistration c).map (·.1)) = some vs) :
    ∀ c ∈ cs, (⟨violationName c, 10⟩ : RegisteredObjective) ∈ vs := by
  induction cs generalizing vs with
  | nil => intro c hc; cases hc
  | cons c0 cs ih =>
    intro c hc
    rw [List.mapM_cons] at h
    cases hr : constraintRegistration c0 with
    | none => rw [hr] at h; simp at h
    | some r =>
      rw [hr] at h
      cases hm : cs.mapM (fun c => (constraintRegistration c).map (·.1)) with
      | none => rw [hm] at h; simp at h
      | some vs' =>
        rw [hm] at h
        simp at h
        subst h
        rcases List.mem_cons.mp hc with rfl | hc'
        · rw [constraintRegistration_fst c r hr]
          exact List.mem_cons_self _ _
        · exact List.mem_cons_of_mem _ (ih vs' hm c hc')

/-- C3: the violation objective of a constraint scores `0.0` exactly when
the constraint expression evaluates truthy, `1.0` on a falsy value or an
evaluation error; on `"x <= 10"`, the design `{"x": 12}` scores `1.0` and
`{"x": 8}` scores `0.0`; and the Objective Function registers every
violation objective with weight `10.0` and every user objective with
weight `1.0`, i.e. ten times a normal objective's weight. -/
theorem violation_objective_spec :
    (∀ (e : Expr) (env : Env) (v : Value),
        safe_eval e env = .ok v → truthy v = true → make_violation_evaluator e env = 0) ∧
    (∀ (e : Expr) (env : Env) (v : Value),
        safe_eval e env = .ok v → truthy v = false → make_violation_evaluator e env = 1) ∧
    (∀ (e : Expr) (env : Env) (err : Err),
        safe_eval e env = .error err → make_violation_evaluator e env = 1) ∧
    make_violation_evaluator (.compare (.name ("x")) [(.le, .lit (.int 10))]) [("x", .int 12)] = 1 ∧
    make_violation_evaluator (.compare (.name ("x")) [(.le, .lit (.int 10))]) [("x", .int 8)] = 0 ∧
    (∀ (cs os : List String) (l : List RegisteredObjective), registerAll cs os = some l →
      (∀ c ∈ cs, (⟨violationName c, 10⟩ : RegisteredObjective) ∈ l) ∧
      (∀ o ∈ os, (⟨o, 1⟩ : RegisteredObjective) ∈ l) ∧
      (10 : ℚ) = 10 * 1) := by
  refine ⟨?_, ?_, ?_, rfl, rfl, ?_⟩
  · intro e env v h ht
    simp [make_violation_evaluator, h, ht]
  · intro e env v h ht
    simp [make_violation_evaluator, h, ht]
  · intro e env err h
    simp [make_violation_evaluator, h]
  · intro cs os l h
    unfold registerAll at h
    cases hm : cs.mapM (fun c => (constraintRegistration c).map (·.1)) with
    | none => rw [hm] at h; cases h
    | some vs =>
      rw [hm] at h
      cases h
      refine ⟨?_, ?_, by norm_num⟩
      · intro c hc
        exact List.mem_append_left _ (mapM_constraint_mem cs vs hm c hc)
      · intro o ho
        exact List.mem_append_right _ (List.mem_map_of_mem _ ho)

/-- C3 witness: the truthy case at `x = 8`, the falsy case at `x = 12`,
and registration of `"x <= 10"` alongside the user objective `profit`. -/
theorem violation_objective_spec_witness :
    make_violation_evaluator (.compare (.name ("x")) [(.le, .lit (.int 10))]) [("x", .int 8)] = 0 ∧
    (⟨violationName ("x <= 10"), 10⟩ : RegisteredObjective) ∈
      [(⟨violationName ("x <= 10"), 10⟩ : RegisteredObjective), ⟨"profit", 1⟩] ∧
    ((⟨"profit", 1⟩ : RegisteredObjective) ∈
      [(⟨violationName ("x <= 10"), 10⟩ : RegisteredObjective), ⟨"profit", 1⟩]) := by
  have h := violation_objective_spec
  have h1 : analyze_constraint ("x <= 10") = some (["x"], [], some ("<=")) := by
    simp +decide [analyze_constraint, stripSpaces, findOp, containsSub, splitOnSub,
      findIdents, isIdentStart, isIdentChar]
  have h2 : constraintRegistration ("x <= 10") =
      some (⟨violationName ("x <= 10"), 10⟩, constraintWeights ["x"] [] "<=") := by
    unfold constraintRegistration
    rw [h1]
  have hreg : registerAll ["x <= 10"] ["profit"] =
      some [⟨violationName ("x <= 10"), 10⟩, ⟨"profit", 1⟩] := by
    unfold registerAll
    rw [List.mapM_cons, h2, List.mapM_nil]
    simp
  refine ⟨h.1 _ _ (.float 1) rfl rfl, ?_, ?_⟩
  · exact (h.2.2.2.2.2 ["x <= 10"] ["profit"] _ hreg).1 _ (by simp)
  · exact (h.2.2.2.2.2 ["x <= 10"] ["profit"] _ hreg).2.1 _ (by simp)

/-! ## C5 — objective score normalization -/

/-- C5: one evaluation of the closure built by `make_objective_func`:
an expression failure scores `0.0` and leaves the bounds alone; otherwise
the bounds expand (only) to contain the raw value, the score is the
min-max normalization of the raw value over the expanded bounds (`0.5`
when they coincide), inverted for a minimize goal, clamped to `[0, 1]`. -/
theorem objective_normalization_spec (expr : Expr) (goal : String) (st : NormState) (env : Env) :
    (floatOfResult? (safe_eval expr env) = none →
        objectiveEvaluate expr goal st env = (0, st)) ∧
    (∀ raw : ℚ, floatOfResult? (safe_eval expr env) = some raw →
        objectiveEvaluate expr goal st env =
          (max 0 (min 1 (if goal = "minimize" then
              1 - (if max st.obs_max raw = min st.obs_min raw then 1/2
                   else (raw - min st.obs_min raw) /
                        (max st.obs_max raw - min st.obs_min raw))
            else
              (if max st.obs_max raw = min st.obs_min raw then 1/2
               else (raw - min st.obs_min raw) /
                    (max st.obs_max raw - min st.obs_min raw)))),
           ⟨min st.obs_min raw, max st.obs_max raw⟩) ∧
        min st.obs_min raw ≤ st.obs_min ∧ st.obs_max ≤ max st.obs_max raw ∧
        min st.obs_min raw ≤ raw ∧ raw ≤ max st.obs_max raw ∧
        0 ≤ (objectiveEvaluate expr goal st env).1 ∧
        (objectiveEvaluate expr goal st env).1 ≤ 1) := by
  constructor
  · intro h
    simp [objectiveEvaluate, h]
  · intro raw h
    have hmin : (if raw < st.obs_min then raw else st.obs_min) = min st.obs_min raw := by
      rcases lt_or_ge raw st.obs_min with hlt | hge
      · simp [hlt, min_eq_right (le_of_lt hlt)]
      · simp [not_lt.mpr hge, min_eq_left hge]
    have hmax : (if raw > st.obs_max then raw else st.obs_max) = max st.obs_max raw := by
      rcases lt_or_ge st.obs_max raw with hlt | hge
      · simp [hlt, max_eq_right (le_of_lt hlt)]
      · simp [not_lt.mpr hge, max_eq_left hge]
    have hle : min st.obs_min raw ≤ max st.obs_max raw :=
      le_trans (min_le_right _ _) (le_max_right _ _)
    have hcond : (min st.obs_min raw < max st.obs_max raw) ↔
        ¬ (max st.obs_max raw = min st.obs_min raw) := by
      constructor
      · intro hlt heq
        exact absurd (heq ▸ hlt) (lt_irrefl _)
      · intro hne
        exact lt_of_le_of_ne hle (fun heq => hne heq.symm)
    have heval : objectiveEvaluate expr goal st env =
        (max 0 (min 1 (if goal = "minimize" then
            1 - (if max st.obs_max raw = min st.obs_min raw then 1/2
                 else (raw - min st.obs_min raw) /
                      (max st.obs_max raw - min st.obs_min raw))
          else
            (if max st.obs_max raw = min st.obs_min raw then 1/2
             else (raw - min st.obs_min raw) /
                  (max st.obs_max raw - min st.obs_min raw)))),
         ⟨min st.obs_min raw, max st.obs_max raw⟩) := by
      unfold objectiveEvaluate
      rw [h]
      simp only [hmin, hmax, propext hcond, ite_not]
    refine ⟨heval, min_le_left _ _, le_max_left _ _, min_le_right _ _, le_max_right _ _, ?_, ?_⟩
    · rw [heval]
      exact le_max_left _ _
    · rw [heval]
      exact max_le (by norm_num) (min_le_left _ _)

/-- C5 witness: evaluating the objective `x` (maximize) at `x = 2` from
bounds `(0, 1)` expands the bounds to `(0, 2)` and scores `1`. -/
theorem objective_normalization_spec_witness :
    floatOfResult? (safe_eval (.name ("x")) [("x", .int 2)]) = some 2 ∧
    objectiveEvaluate (.name ("x")) "maximize" ⟨0, 1⟩ [("x", .int 2)] =
      (max 0 (min 1 (if ("maximize" : String) = "minimize" then
          1 - (if max (1:ℚ) 2 = min (0:ℚ) 2 then 1/2 else ((2:ℚ) - min 0 2) / (max 1 2 - min 0 2))
        else
          (if max (1:ℚ) 2 = min (0:ℚ) 2 then 1/2 else ((2:ℚ) - min 0 2) / (max 1 2 - min 0 2)))),
       ⟨min (0:ℚ) 2, max (1:ℚ) 2⟩) :=
  ⟨rfl, ((objective_normalization_spec (.name ("x")) ("maximize") ⟨0, 1⟩ [("x", .int 2)]).2 2 rfl).1⟩

/-! ## Helper lemmas on the dict machinery -/

/-- Unfolding `List.lookup` through a cons, with a propositional `if`. -/
theorem lookup_cons {α : Type} (k a : String) (b : α) (rest : List (String × α)) :
    List.lookup k ((a, b) :: rest) = if k = a then some b else List.lookup k rest := by
  by_cases h : k = a
  · subst h; simp [List.lookup]
  · have hb : (k == a) = false := beq_eq_false_iff_ne.mpr h
    simp [List.lookup, hb, h]

/-- A dict store only changes the stored key. -/
theorem lookup_dictInsert {α : Type} (k' : String) (v : α) (l : List (String × α)) (k : String) :
    List.lookup k (dictInsert k' v l) = if k = k' then some v else List.lookup k l := by
  induction l with
  | nil => by_cases h : k = k' <;> simp [dictInsert, lookup_cons, h]
  | cons q rest ih =>
    obtain ⟨a, b⟩ := q
    by_cases h1 : k' = a
    · subst h1
      by_cases h2 : k = k' <;> simp [dictInsert, lookup_cons, h2]
    · by_cases h2 : k = a
      · subst h2
        simp [dictInsert, h1, lookup_cons, Ne.symm h1]
      · by_cases h3 : k = k'
        · subst h3
          simp [dictInsert, h1, lookup_cons, h2, ih]
        · simp [dictInsert, h1, lookup_cons, h2, h3, ih]

/-- Sorted insertion does not change lookups except at the inserted key. -/
theorem lookup_insertSorted {α : Type} (p : String × α) (l : List (String × α)) (k : String) :
    List.lookup k (insertSorted p l) = if k = p.1 then some p.2 else List.lookup k l := by
  obtain ⟨x, y⟩ := p
  induction l with
  | nil => by_cases h : k = x <;> simp [insertSorted, lookup_cons, h]
  | cons q rest ih =>
    obtain ⟨a, b⟩ := q
    by_cases hle : x ≤ a
    · by_cases h : k = x <;> simp [insertSorted, hle, lookup_cons, h]
    · have hne : x ≠ a := fun h => hle (le_of_eq h)
      by_cases h2 : k = a
      · subst h2
        simp [insertSorted, hle, lookup_cons, Ne.symm hne]
      · by_cases h : k = x
        · subst h
          simp [insertSorted, hle, lookup_cons, hne, ih]
        · simp [insertSorted, hle, lookup_cons, h2, h, ih]

/-- Sorting by key does not change lookups. -/
theorem lookup_sortByKey {α : Type} (l : List (String × α)) (k : String) :
    List.lookup k (sortByKey l) = List.lookup k l := by
  induction l with
  | nil => rfl
  | cons p rest ih =>
    obtain ⟨a, b⟩ := p
    by_cases h : k = a <;> simp [sortByKey, lookup_insertSorted, h, lookup_cons, ih]

/-- Storing an absent key appends it. -/
theorem dictInsert_not_mem {α : Type} (k : String) (v : α) (l : List (String × α))
    (h : k ∉ l.map Prod.fst) : dictInsert k v l = l ++ [(k, v)] := by
  induction l with
  | nil => rfl
  | cons q rest ih =>
    simp only [List.map_cons, List.mem_cons] at h
    push_neg at h
    simp [dictInsert, h.1, ih h.2]

/-- Python `dict(pairs)` is the identity on lists with pairwise-distinct keys. -/
theorem toDict_eq_self {α : Type} (l : List (String × α)) (h : (l.map Prod.fst).Nodup) :
    toDict l = l := by
  suffices H : ∀ (l acc : List (String × α)), (l.map Prod.fst).Nodup →
      (∀ k ∈ acc.map Prod.fst, k ∉ l.map Prod.fst) →
      l.foldl (fun d p => dictInsert p.1 p.2 d) acc = acc ++ l by
    simpa using H l [] h (by simp)
  intro l
  induction l with
  | nil => intro acc _ _; simp
  | cons p rest ih =>
    intro acc hnd hdisj
    simp only [List.map_cons, List.nodup_cons] at hnd
    have hp : p.1 ∉ acc.map Prod.fst := fun hmem => hdisj p.1 hmem (by simp)
    have step : dictInsert p.1 p.2 acc = acc ++ [p] := dictInsert_not_mem _ _ _ hp
    have hdisj' : ∀ k ∈ (acc ++ [p]).map Prod.fst, k ∉ rest.map Prod.fst := by
      intro k hk
      simp only [List.map_append, List.mem_append, List.map_cons] at hk
      rcases hk with hk | hk
      · exact fun hr => hdisj k hk (by simp [hr])
      · simp only [List.map_nil, List.mem_cons, List.not_mem_nil, or_false] at hk
        subst hk
        exact hnd.1
    calc (p :: rest).foldl (fun d q => dictInsert q.1 q.2 d) acc
        = rest.foldl (fun d q => dictInsert q.1 q.2 d) (acc ++ [p]) := by
          simp [List.foldl_cons, step]
      _ = (acc ++ [p]) ++ rest := ih (acc ++ [p]) hnd.2 hdisj'
      _ = acc ++ p :: rest := by simp

/-- Sorting is the identity on key-sorted lists. -/
theorem sortByKey_eq_self {α : Type} (l : List (String × α))
    (h : l.Chain' fun p q => p.1 < q.1) : sortByKey l = l := by
  induction l with
  | nil => rfl
  | cons p rest ih =>
    have hrest := ih h.tail
    cases rest with
    | nil => rfl
    | cons q rest' =>
      have hpq : p.1 < q.1 := List.chain'_cons.mp h |>.1
      simp [sortByKey] at hrest ⊢
      rw [hrest, insertSorted, if_pos (le_of_lt hpq)]

/-- Strictly key-sorted lists have pairwise-distinct keys. -/
theorem chain'_lt_nodup_keys {α : Type} (l : List (String × α))
    (h : l.Chain' fun p q => p.1 < q.1) : (l.map Prod.fst).Nodup := by
  haveI : IsTrans (String × α) (fun p q => p.1 < q.1) :=
    ⟨fun _ _ _ h1 h2 => lt_trans h1 h2⟩
  have hp : l.Pairwise fun p q => p.1 < q.1 :=
    (List.chain'_iff_pairwise.mp h)
  have : (l.map Prod.fst).Pairwise (· < ·) := List.pairwise_map.mpr hp
  exact this.imp ne_of_lt

/-- Python `tuple(sorted(dict(d).items()))` is the identity on canonical
designs. -/
theorem canon_eq_self {α : Type} (l : List (String × α))
    (h : l.Chain' fun p q => p.1 < q.1) : canon l = l := by
  rw [canon, toDict_eq_self l (chain'_lt_nodup_keys l h), sortByKey_eq_self l h]

/-! ## C6 — seed generation -/

/-- C6 (amended): the seeding phase always returns `.ok` — it never raises
a `SeedGenerationError` — and is fully characterized: the seed list has
exactly `min(10, population_size)` entries, each slot being the first of
up to 1000 drawn designs that satisfies every constraint (canonicalized),
or the deterministic heuristic design when the retry budget yields none. -/
theorem seed_generation_spec :
    (∀ (vars : List VarSpec) (cs : List Expr) (pop : ℕ)
        (attempts : List (List Design)) (fb : List Design),
        generateSeeds vars cs pop attempts fb =
          .ok ((List.range (min 10 pop)).map fun i => genSlot cs vars (attempts.getD i []))) ∧
    (∀ (cs : List Expr) (vars : List VarSpec) (attempts : List Design),
        (attempts.take 1000).find? (satisfiesConstraints cs) = none →
          genSlot cs vars attempts = heuristicDesign vars) ∧
    (∀ (cs : List Expr) (vars : List VarSpec) (attempts : List Design) (d : Design),
        (attempts.take 1000).find? (satisfiesConstraints cs) = some d →
          genSlot cs vars attempts = canon d ∧ satisfiesConstraints cs d = true ∧
          d ∈ attempts.take 1000) := by
  refine ⟨?_, ?_, ?_⟩
  · intro vars cs pop attempts fb
    unfold generateSeeds
    rcases Nat.eq_zero_or_pos (min 10 pop) with h0 | hpos
    · simp [h0]
    · have hne : min 10 pop ≠ 0 := Nat.pos_iff_ne_zero.mp hpos
      simp [hne]
  · intro cs vars attempts h
    unfold genSlot
    rw [h]
  · intro cs vars attempts d h
    unfold genSlot
    rw [h]
    exact ⟨rfl, List.find?_some h, List.mem_of_find?_eq_some h⟩

/-- C6 witness: against the unsatisfiable constraint `x <= -1` over
`x ∈ [0, 100]`, a slot whose 1000-draw budget (here one draw, `x = 50`)
finds no feasible design falls back to the heuristic design. -/
theorem seed_generation_spec_witness :
    (([[("x", (50:ℚ))]] : List Design).take 1000).find?
        (satisfiesConstraints [.compare (.name ("x")) [(.le, .lit (.int (-1)))]]) = none ∧
    genSlot [.compare (.name ("x")) [(.le, .lit (.int (-1)))]]
        [⟨"x", "continuous", some 0, some 100, []⟩] [[("x", (50:ℚ))]] =
      heuristicDesign [⟨"x", "continuous", some 0, some 100, []⟩] :=
  ⟨rfl, seed_generation_spec.2.1 _ _ _ rfl⟩

/-- C6 counterexample to the claim as stated: with population cap `0`
(zero seed slots) zero seeds are produced, yet the code returns
successfully with the empty seed list instead of failing with a
`SeedGenerationError`. -/
theorem seed_zero_without_error_counterexample :
    generateSeeds [⟨"x", "continuous", some 0, some 100, []⟩]
      [.compare (.name ("x")) [(.le, .lit (.int (-1)))]] 0 [] [] = .ok [] := rfl

/-! ## C7 — directional weight wiring of constraints -/

/-- Appending equal-length distinct tags keeps strings distinct. -/
theorem append_tag_ne (t1 t2 v u : String) (hlen : t1.data.length = t2.data.length)
    (hne : t1 ≠ t2) : (t1 ++ v) ≠ (t2 ++ u) := by
  intro h
  have hd := congrArg String.data h
  rw [String.data_append, String.data_append] at hd
  exact hne (String.ext (List.append_inj_left hd hlen))

/-- Lemma: `String.append` is left-cancellative. -/
theorem string_append_cancel (p v u : String) (h : p ++ v = p ++ u) : v = u := by
  have hd := congrArg String.data h
  rw [String.data_append, String.data_append] at hd
  exact String.ext (List.append_cancel_left hd)

/-- Keys not produced by a weight loop are untouched by it. -/
theorem lookup_foldTag_stable (t1 : String) (w1 : ℚ) (t2 : String) (w2 : ℚ)
    (vs : List String) (w0 : List (String × ℚ)) (k : String)
    (hk : ∀ u ∈ vs, k ≠ t1 ++ u ∧ k ≠ t2 ++ u) :
    List.lookup k (foldTag t1 w1 t2 w2 vs w0) = List.lookup k w0 := by
  induction vs generalizing w0 with
  | nil => rfl
  | cons u vs ih =>
    have hu := hk u (by simp)
    have hrest : ∀ x ∈ vs, k ≠ t1 ++ x ∧ k ≠ t2 ++ x := fun x hx => hk x (by simp [hx])
    simp only [foldTag, List.foldl_cons] at ih ⊢
    rw [ih _ hrest, lookup_dictInsert, if_neg hu.2, lookup_dictInsert, if_neg hu.1]

/-- A weight loop stores `w1` under `t1 ++ v` and `w2` under `t2 ++ v` for
every identifier `v` it visits (later visits of the same identifier
overwrite with the same values). -/
theorem lookup_foldTag_mem (t1 : String) (w1 : ℚ) (t2 : String) (w2 : ℚ)
    (vs : List String) (w0 : List (String × ℚ)) (v : String)
    (hv : v ∈ vs)
    (hlen : t1.data.length = t2.data.length) (hne : t1 ≠ t2) :
    List.lookup (t1 ++ v) (foldTag t1 w1 t2 w2 vs w0) = some w1 ∧
    List.lookup (t2 ++ v) (foldTag t1 w1 t2 w2 vs w0) = some w2 := by
  induction vs generalizing w0 with
  | nil => cases hv
  | cons u vs ih =>
    by_cases hmem : v ∈ vs
    · simp only [foldTag, List.foldl_cons] at ih ⊢
      exact ih _ hmem
    · have hvu : v = u := by
        rcases List.mem_cons.mp hv with h | h
        · exact h
        · exact absurd h hmem
      subst hvu
      have hstable1 : ∀ x ∈ vs, (t1 ++ v) ≠ t1 ++ x ∧ (t1 ++ v) ≠ t2 ++ x := by
        intro x hx
        exact ⟨fun he => hmem (string_append_cancel t1 v x he ▸ hx),
               append_tag_ne t1 t2 v x hlen hne⟩
      have hstable2 : ∀ x ∈ vs, (t2 ++ v) ≠ t1 ++ x ∧ (t2 ++ v) ≠ t2 ++ x := by
        intro x hx
        exact ⟨append_tag_ne t2 t1 v x hlen.symm (Ne.symm hne),
               fun he => hmem (string_append_cancel t2 v x he ▸ hx)⟩
      constructor
      · simp only [foldTag, List.foldl_cons]
        rw [show (List.foldl (fun w x => dictInsert (t2 ++ x) w2 (dictInsert (t1 ++ x) w1 w))
              (dictInsert (t2 ++ v) w2 (dictInsert (t1 ++ v) w1 w0)) vs)
            = foldTag t1 w1 t2 w2 vs (dictInsert (t2 ++ v) w2 (dictInsert (t1 ++ v) w1 w0))
            from rfl,
          lookup_foldTag_stable t1 w1 t2 w2 vs _ _ hstable1,
          lookup_dictInsert, if_neg (append_tag_ne t1 t2 v v hlen hne),
          lookup_dictInsert, if_pos rfl]
      · simp only [foldTag, List.foldl_cons]
        rw [show (List.foldl (fun w x => dictInsert (t2 ++ x) w2 (dictInsert (t1 ++ x) w1 w))
              (dictInsert (t2 ++ v) w2 (dictInsert (t1 ++ v) w1 w0)) vs)
            = foldTag t1 w1 t2 w2 vs (dictInsert (t2 ++ v) w2 (dictInsert (t1 ++ v) w1 w0))
            from rfl,
          lookup_foldTag_stable t1 w1 t2 w2 vs _ _ hstable2,
          lookup_dictInsert, if_pos rfl]

/-- C7 (amended): for a `<=`/`<` constraint, every right-hand-side
identifier ends with `inc_v ↦ +1` and `dec_v ↦ -1`; every left-hand-side
identifier *not also on the right* ends with `dec_v ↦ +1` and
`inc_v ↦ -1` (an identifier on both sides keeps the right-hand
assignment, written later); mirrored for `>=`/`>`; and a constraint with
none of the four operators still registers its violation objective, with
no directional weights. -/
theorem constraint_wiring_spec :
    (∀ (lv rv : List String) (op v : String), (op = "<=" ∨ op = "<") → v ∈ rv →
        List.lookup ("inc_" ++ v) (constraintWeights lv rv op) = some 1 ∧
        List.lookup ("dec_" ++ v) (constraintWeights lv rv op) = some (-1)) ∧
    (∀ (lv rv : List String) (op v : String), (op = "<=" ∨ op = "<") → v ∈ lv → v ∉ rv →
        List.lookup ("dec_" ++ v) (constraintWeights lv rv op) = some 1 ∧
        List.lookup ("inc_" ++ v) (constraintWeights lv rv op) = some (-1)) ∧
    (∀ (lv rv : List String) (op v : String), (op = ">=" ∨ op = ">") → v ∈ rv →
        List.lookup ("dec_" ++ v) (constraintWeights lv rv op) = some 1 ∧
        List.lookup ("inc_" ++ v) (constraintWeights lv rv op) = some (-1)) ∧
    (∀ (lv rv : List String) (op v : String), (op = ">=" ∨ op = ">") → v ∈ lv → v ∉ rv →
        List.lookup ("inc_" ++ v) (constraintWeights lv rv op) = some 1 ∧
        List.lookup ("dec_" ++ v) (constraintWeights lv rv op) = some (-1)) ∧
    (∀ (s : String) (lv rv : List String), analyze_constraint s = some (lv, rv, none) →
        lv = [] ∧ rv = [] ∧
        constraintRegistration s = some (⟨violationName s, 10⟩, [])) := by
  have hlt : ∀ op : String, (op = "<=" ∨ op = "<") →
      ∀ lv rv, constraintWeights lv rv op =
        foldTag ("inc_") 1 ("dec_") (-1) rv (foldTag ("dec_") 1 ("inc_") (-1) lv []) := by
    intro op hop lv rv
    unfold constraintWeights
    rw [if_pos hop]
  have hgt : ∀ op : String, (op = ">=" ∨ op = ">") →
      ∀ lv rv, constraintWeights lv rv op =
        foldTag ("dec_") 1 ("inc_") (-1) rv (foldTag ("inc_") 1 ("dec_") (-1) lv []) := by
    intro op hop lv rv
    have hne : ¬ (op = "<=" ∨ op = "<") := by
      rcases hop with rfl | rfl <;> simp
    unfold constraintWeights
    rw [if_neg hne, if_pos hop]
  have hlen : ("inc_" : String).data.length = ("dec_" : String).data.length := rfl
  have hne : ("inc_" : String) ≠ "dec_" := by decide
  refine ⟨?_, ?_, ?_, ?_, ?_⟩
  · intro lv rv op v hop hv
    rw [hlt op hop]
    exact lookup_foldTag_mem _ 1 _ (-1) rv _ v hv hlen hne
  · intro lv rv op v hop hv hnv
    rw [hlt op hop]
    have hstable : ∀ x ∈ rv, ("dec_" ++ v) ≠ "inc_" ++ x ∧ ("dec_" ++ v) ≠ "dec_" ++ x := by
      intro x hx
      exact ⟨append_tag_ne _ _ v x hlen.symm (Ne.symm hne),
             fun he => hnv (string_append_cancel _ v x he ▸ hx)⟩
    have hstable' : ∀ x ∈ rv, ("inc_" ++ v) ≠ "inc_" ++ x ∧ ("inc_" ++ v) ≠ "dec_" ++ x := by
      intro x hx
      exact ⟨fun he => hnv (string_append_cancel _ v x he ▸ hx),
             append_tag_ne _ _ v x hlen hne⟩
    constructor
    · rw [lookup_foldTag_stable ("inc_") 1 ("dec_") (-1) rv _ _ hstable]
      exact (lookup_foldTag_mem ("dec_") 1 ("inc_") (-1) lv [] v hv hlen.symm (Ne.symm hne)).1
    · rw [lookup_foldTag_stable ("inc_") 1 ("dec_") (-1) rv _ _ hstable']
      exact (lookup_foldTag_mem ("dec_") 1 ("inc_") (-1) lv [] v hv hlen.symm (Ne.symm hne)).2
  · intro lv rv op v hop hv
    rw [hgt op hop]
    exact lookup_foldTag_mem _ 1 _ (-1) rv _ v hv hlen.symm (Ne.symm hne)
  · intro lv rv op v hop hv hnv
    rw [hgt op hop]
    have hstable : ∀ x ∈ rv, ("inc_" ++ v) ≠ "dec_" ++ x ∧ ("inc_" ++ v) ≠ "inc_" ++ x := by
      intro x hx
      exact ⟨append_tag_ne _ _ v x hlen hne,
             fun he => hnv (string_append_cancel _ v x he ▸ hx)⟩
    have hstable' : ∀ x ∈ rv, ("dec_" ++ v) ≠ "dec_" ++ x ∧ ("dec_" ++ v) ≠ "inc_" ++ x := by
      intro x hx
      exact ⟨fun he => hnv (string_append_cancel _ v x he ▸ hx),
             append_tag_ne _ _ v x hlen.symm (Ne.symm hne)⟩
    constructor
    · rw [lookup_foldTag_stable ("dec_") 1 ("inc_") (-1) rv _ _ hstable]
      exact (lookup_foldTag_mem ("inc_") 1 ("dec_") (-1) lv [] v hv hlen hne).1
    · rw [lookup_foldTag_stable ("dec_") 1 ("inc_") (-1) rv _ _ hstable']
      exact (lookup_foldTag_mem ("inc_") 1 ("dec_") (-1) lv [] v hv hlen hne).2
  · intro s lv rv h
    have ha := h
    simp only [analyze_constraint] at h
    cases hf : findOp (stripSpaces s.data) with
    | none =>
      rw [hf] at h
      simp only [Option.some_inj, Prod.mk.injEq] at h
      obtain ⟨h1, h2, -⟩ := h
      subst h1
      subst h2
      refine ⟨rfl, rfl, ?_⟩
      unfold constraintRegistration
      rw [ha]
    | some op =>
      simp only [hf] at h
      cases hs : splitOnSub op.data (stripSpaces s.data) with
      | nil => simp [hs] at h
      | cons l rest =>
        simp only [hs] at h
        cases rest with
        | nil => simp at h
        | cons r rest' =>
          cases rest' with
          | nil => simp at h
          | cons x xs => simp at h

/-- C7 witness: for the constraint shape `a <= b`, the right-hand
identifier `b` gets `inc_b ↦ +1` and `dec_b ↦ -1`. -/
theorem constraint_wiring_spec_witness :
    List.lookup ("inc_" ++ "b") (constraintWeights ["a"] ["b"] "<=") = some 1 ∧
    List.lookup ("dec_" ++ "b") (constraintWeights ["a"] ["b"] "<=") = some (-1) :=
  constraint_wiring_spec.1 ["a"] ["b"] "<=" "b" (Or.inl rfl) (by simp)

/-- C7 counterexample to the claim as stated: in `x <= x` the identifier
`x` appears on both sides; the final weight of `dec_x` is `-1` (the
right-hand side's assignment, written last), not the `+1` the left-hand
rule promises. -/
theorem constraint_shared_identifier_counterexample :
    analyze_constraint ("x <= x") = some (["x"], ["x"], some ("<=")) ∧
    List.lookup ("dec_" ++ "x") (constraintWeights ["x"] ["x"] "<=") = some (-1) ∧
    List.lookup ("dec_" ++ "x") (constraintWeights ["x"] ["x"] "<=") ≠ some 1 := by
  have hval : List.lookup ("dec_" ++ "x") (constraintWeights ["x"] ["x"] "<=") = some (-1) := by
    simp +decide [constraintWeights, foldTag, dictInsert, List.lookup]
  refine ⟨?_, hval, ?_⟩
  · simp +decide [analyze_constraint, stripSpaces, findOp, containsSub, splitOnSub,
      findIdents, isIdentStart, isIdentChar]
  · rw [hval]
    intro hcontra
    have h1 : (-1 : ℚ) = 1 := Option.some.inj hcontra
    norm_num at h1

/-! ## C9 — applying a modifier to a design lacking its bound variable -/

/-- C9: for every design in canonical form (strictly key-sorted, as every
design built by the service is) that has no entry for the modifier's bound
variable, `ConfigurableModifier.__call__` returns the design unchanged. -/
theorem modifier_absent_variable_noop (m : ModifierCfg) (r : Rand) (d : Design)
    (hcanon : List.Chain' (fun p q => p.1 < q.1) d)
    (habs : List.lookup m.variableName d = none) :
    ConfigurableModifier.call m r d = d := by
  unfold ConfigurableModifier.call
  simp only [toDict_eq_self d (chain'_lt_nodup_keys d hcanon), habs]
  exact sortByKey_eq_self d hcanon

/-- C9 witness: a modifier bound to `color` applied to the canonical design
`(("a", 1),)` is the identity. -/
theorem modifier_absent_variable_noop_witness :
    List.Chain' (fun p q : String × ℚ => p.1 < q.1) [("a", (1:ℚ))] ∧
    List.lookup ("color") [("a", (1:ℚ))] = none ∧
    ConfigurableModifier.call
      ⟨"color", none, "random", "categorical", none, none, ["red", "blue"]⟩
      ⟨0, 0, 0, 0, 0, 0, true⟩ [("a", 1)] = [("a", 1)] :=
  ⟨List.chain'_singleton _, rfl,
    modifier_absent_variable_noop _ _ _ (List.chain'_singleton _) rfl⟩

/-! ## C10 — a modifier writes at most its own variable -/

/-- C10: for every canonical design and every modifier configuration and
random draw, the result of `ConfigurableModifier.__call__` binds every
variable other than the modifier's own to exactly its value in the input
design. -/
theorem modifier_frame_effect (m : ModifierCfg) (r : Rand) (d : Design) (k : String)
    (hcanon : List.Chain' (fun p q => p.1 < q.1) d)
    (hk : k ≠ m.variableName) :
    List.lookup k (ConfigurableModifier.call m r d) = List.lookup k d := by
  unfold ConfigurableModifier.call
  rw [toDict_eq_self d (chain'_lt_nodup_keys d hcanon)]
  cases hl : List.lookup m.variableName d with
  | none => simp [hl, lookup_sortByKey]
  | some cur => simp [hl, lookup_sortByKey, lookup_dictInsert, hk]

/-- C10 witness: an `inc_b` gaussian modifier leaves `a`'s value alone. -/
theorem modifier_frame_effect_witness :
    List.Chain' (fun p q : String × ℚ => p.1 < q.1) [("a", (1:ℚ)), ("b", 2)] ∧
    List.lookup ("a")
      (ConfigurableModifier.call
        ⟨"b", some ("gaussian"), "increase", "continuous", some 0, some 10, []⟩
        ⟨3, 0, 0, 0, 0, 0, true⟩ [("a", 1), ("b", 2)]) =
      List.lookup ("a") [("a", (1:ℚ)), ("b", 2)] := by
  have hc : List.Chain' (fun p q : String × ℚ => p.1 < q.1) [("a", (1:ℚ)), ("b", 2)] := by
    refine List.chain'_cons.mpr ⟨?_, List.chain'_singleton _⟩
    rw [String.lt_iff_toList_lt]
    decide
  exact ⟨hc, modifier_frame_effect _ _ _ _ hc (by decide)⟩

/-! ## C4 — modifier results can escape the variable's domain (code bug) -/

/-- C4: failing input for the domain-safety property.  A categorical
variable with two categories whose modifier uses the default `gaussian`
strategy (exactly what `run_optimization` builds when `modifierStrategy`
is absent): starting from the valid index `0`, a gaussian draw of `0.7`
produces the stored value `0.7`, which is not an index of the two-element
category list (it is not even an integer) — the clamp of lines 93-100
only runs for `continuous`/`discrete` variables. -/
theorem categorical_gaussian_modifier_bug :
    ConfigurableModifier.call
      ⟨"color", none, "random", "categorical", none, none, ["red", "blue"]⟩
      ⟨0, 7/10, 0, 0, 0, 0, true⟩ [("color", 0)] = [("color", 7/10)] ∧
    ∀ i : Fin 2, ((7:ℚ)/10) ≠ (i : ℚ) := by
  constructor
  · simp +decide [ConfigurableModifier.call, toDict, dictInsert, sortByKey, insertSorted,
      List.lookup]
  · norm_num [Fin.forall_fin_two]

end AIOpt
